import Mathlib

/-!
Shallow embedding of `Ext.ux.form.field.MeridiemTime`
(src/ux/form/field/MeridiemTime.js), the AM/PM time field.

The component's own logic (`parseDate`, `safeParse`, `clearDate`,
`formatDate`, `getErrors`, `rawToValue`, `valueToRaw`, `setMinValue`,
`setMaxValue`, the meridiem handling in `setValue`, and `onSelect`) is
translated directly from the source.  The Ext JS 4 framework primitives the
component calls (`Ext.Date.parse`, `Ext.Date.format`/`dateFormat`,
`Ext.String.format`, `Ext.String.leftPad`, and the JavaScript `Date`
mutators `setDate`/`setMonth`/`setFullYear`/`setSeconds`) are modelled
after their documented Ext JS 4 / ECMAScript behaviour, restricted to the
format codes the component actually uses (`h g i s A` and literal
characters).  JavaScript `Date` objects are modelled as records of local
calendar components; `getTime` is the millisecond timeline derived from
those components via a civil-calendar day count.
-/

namespace MeridiemTime

/-- Character for a decimal digit: `digitChar k` is the character with code
`48 + k % 10`. -/
def digitChar (k : Nat) : Char := Char.ofNat (48 + k % 10)

/-- Digit accumulation for `natToChars`; the first argument is fuel (any
amount at least the digit count works, recursion stops by itself). -/
def natToCharsAux : Nat → Nat → List Char → List Char
  | 0, _, acc => acc
  | fuel + 1, n, acc =>
    if n < 10 then digitChar n :: acc
    else natToCharsAux fuel (n / 10) (digitChar n :: acc)

/-- Decimal digit characters of a natural number (models JavaScript
`String(n)` for a nonnegative integer). -/
def natToChars (n : Nat) : List Char := natToCharsAux (n + 1) n []

/-- Model of `Ext.String.leftPad(string, size, '0')`: pad on the left with
the given character up to `size` characters. -/
def leftPad (cs : List Char) (size : Nat) (c : Char) : List Char :=
  List.replicate (size - cs.length) c ++ cs

/-- Two-digit zero-padded rendering, `Ext.String.leftPad(String(n), 2, '0')`. -/
def pad2 (n : Nat) : List Char := leftPad (natToChars n) 2 '0'

/-- Twelve-hour clock hour shown for a 0-23 hour value: Ext's
`(getHours() % 12) ? getHours() % 12 : 12`. -/
def h12 (h : Nat) : Nat := if h % 12 = 0 then 12 else h % 12

/-- Leap year predicate of the Gregorian calendar (proleptic, as used by
JavaScript `Date`). -/
def isLeap (y : Int) : Bool := (y % 4 = 0 ∧ y % 100 ≠ 0) ∨ y % 400 = 0

/-- Days in a month; the month is 0-based as in JavaScript (0 = January). -/
def daysInMonth (y : Int) (m : Nat) : Nat :=
  if m = 1 then (if isLeap y then 29 else 28)
  else if m = 3 ∨ m = 5 ∨ m = 8 ∨ m = 10 then 30
  else 31

/-- Days between 1970-01-01 and year `y`, 0-based month `m` (0-11), day `d`
(civil-from-days algorithm; executable only, used when a JavaScript `Date`
has to normalize out-of-range components). -/
def daysFromCivil (y : Int) (m : Nat) (d : Nat) : Int :=
  let m1 : Int := (m : Int) + 1
  let y1 : Int := if m1 ≤ 2 then y - 1 else y
  let era : Int := (if 0 ≤ y1 then y1 else y1 - 399) / 400
  let yoe : Int := y1 - era * 400
  let doy : Int := (153 * (m1 + (if 2 < m1 then -3 else 9)) + 2) / 5 + (d : Int) - 1
  let doe : Int := yoe * 365 + yoe / 4 - yoe / 100 + doy
  era * 146097 + doe - 719468

/-- Inverse of `daysFromCivil`: calendar date (year, 0-based month, day)
of a day count relative to 1970-01-01. -/
def civilFromDays (z0 : Int) : Int × Nat × Nat :=
  let z : Int := z0 + 719468
  let era : Int := (if 0 ≤ z then z else z - 146096) / 146097
  let doe : Int := z - era * 146097
  let yoe : Int := (doe - doe / 1460 + doe / 36524 - doe / 146096) / 365
  let y : Int := yoe + era * 400
  let doy : Int := doe - (365 * yoe + yoe / 4 - yoe / 100)
  let mp : Int := (5 * doy + 2) / 153
  let d : Int := doy - (153 * mp + 2) / 5 + 1
  let m1 : Int := mp + (if mp < 10 then 3 else -9)
  ((if m1 ≤ 2 then y + 1 else y), (m1 - 1).toNat, d.toNat)

/-- JavaScript `Date`, as its local calendar components.  `month` is
0-based (0 = January), `day` is 1-based. -/
structure JSDate where
  year : Int
  month : Nat
  day : Nat
  hours : Nat
  minutes : Nat
  seconds : Nat
  ms : Nat
  deriving DecidableEq

/-- A `JSDate` whose components are in their calendar ranges. -/
def validDate (dt : JSDate) : Prop :=
  dt.month ≤ 11 ∧ 1 ≤ dt.day ∧ dt.day ≤ daysInMonth dt.year dt.month ∧
    dt.hours ≤ 23 ∧ dt.minutes ≤ 59 ∧ dt.seconds ≤ 59 ∧ dt.ms ≤ 999

instance (dt : JSDate) : Decidable (validDate dt) := by
  unfold validDate; infer_instance

/-- Model of `new Date(y, m, d, h, i, s, ms)`: in-range components are
taken as given; out-of-range components roll over along the millisecond
timeline, exactly as the ECMAScript `MakeDay`/`MakeTime` normalization. -/
def mkDateNorm (y m d h i s ms : Int) : JSDate :=
  if 0 ≤ m ∧ m ≤ 11 ∧ 1 ≤ d ∧ d ≤ (daysInMonth y m.toNat : Int) ∧
      0 ≤ h ∧ h ≤ 23 ∧ 0 ≤ i ∧ i ≤ 59 ∧ 0 ≤ s ∧ s ≤ 59 ∧ 0 ≤ ms ∧ ms ≤ 999 then
    ⟨y, m.toNat, d.toNat, h.toNat, i.toNat, s.toNat, ms.toNat⟩
  else
    let ym : Int := y * 12 + m
    let m2 : Int := ym.emod 12
    let y2 : Int := (ym - m2) / 12
    let dayN : Int := daysFromCivil y2 m2.toNat 1 + (d - 1)
    let total : Int := dayN * 86400000 + (h * 3600000 + i * 60000 + s * 1000 + ms)
    let dayN2 : Int := total.fdiv 86400000
    let rem : Nat := (total.emod 86400000).toNat
    let c := civilFromDays dayN2
    ⟨c.1, c.2.1, c.2.2, rem / 3600000, rem % 3600000 / 60000, rem % 60000 / 1000, rem % 1000⟩

/-- Model of `Date.prototype.getTime`: milliseconds on the timeline
spanned by the calendar components. -/
def JSDate.getTime (dt : JSDate) : Int :=
  daysFromCivil dt.year dt.month dt.day * 86400000 +
    ((dt.hours : Int) * 3600000 + (dt.minutes : Int) * 60000 +
      (dt.seconds : Int) * 1000 + (dt.ms : Int))

/-- Model of `Date.prototype.setDate`. -/
def jsSetDate (dt : JSDate) (d : Int) : JSDate :=
  mkDateNorm dt.year dt.month d dt.hours dt.minutes dt.seconds dt.ms

/-- Model of `Date.prototype.setMonth` (single-argument form). -/
def jsSetMonth (dt : JSDate) (m : Int) : JSDate :=
  mkDateNorm dt.year m dt.day dt.hours dt.minutes dt.seconds dt.ms

/-- Model of `Date.prototype.setFullYear` (single-argument form). -/
def jsSetFullYear (dt : JSDate) (y : Int) : JSDate :=
  mkDateNorm y dt.month dt.day dt.hours dt.minutes dt.seconds dt.ms

/-- Model of `Date.prototype.setSeconds` (single-argument form). -/
def jsSetSeconds (dt : JSDate) (s : Int) : JSDate :=
  mkDateNorm dt.year dt.month dt.day dt.hours dt.minutes s dt.ms

/-- JavaScript values the component's time logic passes around: `null`,
`undefined`, strings, and `Date` objects. -/
inductive JSVal where
  | null : JSVal
  | undef : JSVal
  | str : String → JSVal
  | date : JSDate → JSVal
  deriving DecidableEq

/-- JavaScript truthiness of a `JSVal`: `null`, `undefined` and the empty
string are falsy, every other string and every `Date` is truthy. -/
def jsTruthy : JSVal → Bool
  | .null => false
  | .undef => false
  | .str s => !s.isEmpty
  | .date _ => true

/-- JavaScript `a || b`. -/
def jsOr (a b : JSVal) : JSVal := if jsTruthy a then a else b

/-- An optional date as the JavaScript value a fallible Ext parse yields:
the date on success, `null` on failure. -/
def jsOfOption : Option JSDate → JSVal
  | some d => .date d
  | none => .null

/-- Model of `Ext.isDate`. -/
def isDateVal : JSVal → Bool
  | .date _ => true
  | _ => false

/-- Format codes of `Ext.Date` used by this component: 12-hour hours with
(`h`) and without (`g`) a leading zero, minutes `i`, seconds `s`, the
uppercase meridiem marker `A`, and literal characters. -/
inductive Tok where
  | th : Tok
  | tg : Tok
  | ti : Tok
  | ts : Tok
  | tA : Tok
  | lit : Char → Tok
  deriving DecidableEq

/-- Tokenization of an `Ext.Date` format string (characters that are not
format codes stand for themselves). -/
def fmtToks : List Char → List Tok
  | [] => []
  | c :: cs =>
    (if c = 'h' then Tok.th
     else if c = 'g' then Tok.tg
     else if c = 'i' then Tok.ti
     else if c = 's' then Tok.ts
     else if c = 'A' then Tok.tA
     else Tok.lit c) :: fmtToks cs

/-- Capture groups collected while matching an input against a format, as
in the parse functions `Ext.Date.createParser` generates: hour, minute and
second values and the meridiem (`true` = PM), each `none` until its format
code has matched. -/
structure Acc where
  h : Option Nat := none
  i : Option Nat := none
  s : Option Nat := none
  isPM : Option Bool := none
  deriving DecidableEq

/-- Numeric value of two digit characters. -/
def d2 (c1 c2 : Char) : Nat := (c1.toNat - 48) * 10 + (c2.toNat - 48)

/-- Anchored match of a token list against the input characters, following
the regular expression `Ext.Date.createParser` builds: `h` is
`(1[0-2]|0[1-9])`, `g` is `(1[0-2]|[0-9])` (two-digit branch preferred,
with backtracking), `i` and `s` are `([0-5][0-9])`, `A` is
`(AM|PM|am|pm)`, and the whole input must be consumed (`^...$`). -/
def matchToks : List Tok → List Char → Acc → Option Acc
  | [], cs, acc => if cs.isEmpty then some acc else none
  | Tok.lit c :: toks, cs, acc =>
    match cs with
    | c1 :: rest => if c1 = c then matchToks toks rest acc else none
    | [] => none
  | Tok.th :: toks, cs, acc =>
    match cs with
    | c1 :: c2 :: rest =>
      if (c1.toNat = 49 ∧ 48 ≤ c2.toNat ∧ c2.toNat ≤ 50) ∨
          (c1.toNat = 48 ∧ 49 ≤ c2.toNat ∧ c2.toNat ≤ 57) then
        matchToks toks rest { acc with h := some (d2 c1 c2) }
      else none
    | _ => none
  | Tok.tg :: toks, cs, acc =>
    match cs with
    | c1 :: c2 :: rest =>
      match (if c1.toNat = 49 ∧ 48 ≤ c2.toNat ∧ c2.toNat ≤ 50 then
          matchToks toks rest { acc with h := some (d2 c1 c2) }
        else none) with
      | some r => some r
      | none =>
        if 48 ≤ c1.toNat ∧ c1.toNat ≤ 57 then
          matchToks toks (c2 :: rest) { acc with h := some (c1.toNat - 48) }
        else none
    | [c1] =>
      if 48 ≤ c1.toNat ∧ c1.toNat ≤ 57 then
        matchToks toks [] { acc with h := some (c1.toNat - 48) }
      else none
    | [] => none
  | Tok.ti :: toks, cs, acc =>
    match cs with
    | c1 :: c2 :: rest =>
      if 48 ≤ c1.toNat ∧ c1.toNat ≤ 53 ∧ 48 ≤ c2.toNat ∧ c2.toNat ≤ 57 then
        matchToks toks rest { acc with i := some (d2 c1 c2) }
      else none
    | _ => none
  | Tok.ts :: toks, cs, acc =>
    match cs with
    | c1 :: c2 :: rest =>
      if 48 ≤ c1.toNat ∧ c1.toNat ≤ 53 ∧ 48 ≤ c2.toNat ∧ c2.toNat ≤ 57 then
        matchToks toks rest { acc with s := some (d2 c1 c2) }
      else none
    | _ => none
  | Tok.tA :: toks, cs, acc =>
    match cs with
    | c1 :: c2 :: rest =>
      if (c1.toNat = 65 ∧ c2.toNat = 77) ∨ (c1.toNat = 97 ∧ c2.toNat = 109) then
        matchToks toks rest { acc with isPM := some false }
      else if (c1.toNat = 80 ∧ c2.toNat = 77) ∨ (c1.toNat = 112 ∧ c2.toNat = 109) then
        matchToks toks rest { acc with isPM := some true }
      else none
    | _ => none

/-- Hour adjustment the `A` parse code performs when the input said `am`:
`if (!h || h == 12) { h = 0; }`. -/
def applyAM : Option Nat → Nat
  | none => 0
  | some hv => if hv = 0 ∨ hv = 12 then 0 else hv

/-- Hour adjustment the `A` parse code performs when the input said `pm`:
`if (!h || h < 12) { h = (h || 0) + 12; }`. -/
def applyPM : Option Nat → Nat
  | none => 12
  | some hv => if hv < 12 then hv + 12 else hv

/-- Hour the parse yields: the captured hour put through the meridiem
calc when an `A` code matched, otherwise defaulted to 0. -/
def accHours (acc : Acc) : Nat :=
  match acc.isPM with
  | some true => applyPM acc.h
  | some false => applyAM acc.h
  | none => acc.h.getD 0

/-- Model of (non-strict) `Ext.Date.parse(input, format)` for the format
codes in `Tok`: match the anchored regular expression, then build
`new Date(y, m, d, h, i, s, ms)` where the date components default to the
current date and the unmatched time components default to 0. -/
def extDateParse (now : JSDate) (input : String) (fmt : String) : Option JSDate :=
  (matchToks (fmtToks fmt.data) input.data {}).map fun acc =>
    mkDateNorm now.year now.month now.day (accHours acc) (acc.i.getD 0) (acc.s.getD 0) 0

/-- Rendering of one format code by `Ext.Date.format`: `h` is the
zero-padded 12-hour hour, `g` the unpadded 12-hour hour, `i`/`s` the
zero-padded minutes/seconds, `A` is `AM` before noon and `PM` from noon
on, and a literal stands for itself. -/
def renderTok (d : JSDate) : Tok → List Char
  | .th => pad2 (h12 d.hours)
  | .tg => natToChars (h12 d.hours)
  | .ti => pad2 d.minutes
  | .ts => pad2 d.seconds
  | .tA => if d.hours < 12 then ['A', 'M'] else ['P', 'M']
  | .lit c => [c]

/-- Model of `Ext.Date.format(date, fmt)` / `Ext.Date.dateFormat` on an
actual `Date`. -/
def extDateFormat (d : JSDate) (fmt : String) : String :=
  ⟨(List.map (renderTok d) (fmtToks fmt.data)).flatten⟩

/-- Longest leading run of digit characters, with the rest. -/
def takeDigits : List Char → List Char × List Char
  | [] => ([], [])
  | c :: cs =>
    if 48 ≤ c.toNat ∧ c.toNat ≤ 57 then
      let p := takeDigits cs
      (c :: p.1, p.2)
    else ([], c :: cs)

/-- Numeric value of a digit string. -/
def digitsToNat (ds : List Char) : Nat :=
  ds.foldl (fun a c => a * 10 + (c.toNat - 48)) 0

/-- The string a missing replacement argument turns into (JavaScript
coerces `undefined` into its name). -/
def undefinedStr : String := "undefined"

/-- Template scan for `strFmt`; the first argument is fuel (the scan
consumes at least one template character per step, so any fuel at least
the template length works). -/
def strFmtAux : Nat → List Char → List String → List Char
  | 0, cs, _ => cs
  | _, [], _ => []
  | fuel + 1, c :: cs, args =>
    if c.toNat = 123 then
      match (takeDigits cs).2 with
      | r :: rest =>
        if (takeDigits cs).1 ≠ [] ∧ r.toNat = 125 then
          (args.getD (digitsToNat (takeDigits cs).1) undefinedStr).data ++
            strFmtAux fuel rest args
        else c :: strFmtAux fuel cs args
      | [] => c :: strFmtAux fuel cs args
    else c :: strFmtAux fuel cs args

/-- Model of `Ext.String.format(template, args...)`: every occurrence of
a brace-enclosed decimal index is replaced by the corresponding argument
(the regex `/\x7b(\d+)\x7d/g`); replacements are not rescanned. -/
def strFmt (tpl : String) (args : List String) : String :=
  ⟨strFmtAux (tpl.data.length + 1) tpl.data args⟩

/-- Configuration of the field after `initComponent` ran: the format
strings, the bound/invalid error templates and the seconds toggle. -/
structure Config where
  format : String
  captureSeconds : Bool
  altFormats : String
  minText : String
  maxText : String
  invalidText : String
  invalidTextFormat : String
  deriving DecidableEq

/-- The class defaults of the member configs. -/
def defaultAltFormats : String := "h:iA|hiA|g:iA|giA|hA|gA"

def defaultMinText : String := "The time in this field must be equal to or after {0}"

def defaultMaxText : String := "The time in this field must be equal to or before {0}"

def defaultInvalidText : String := "{0} is not a valid time - it must be in the format {1}"

/-- Configuration produced by `initComponent` from the class defaults:
with `captureSeconds` the format becomes `captureSecondsFormat` and the
seconds formats are appended to `altFormats`; `invalidTextFormat`
defaults by the seconds toggle. -/
def initConfig (captureSeconds : Bool) : Config :=
  if captureSeconds then
    { format := "h:i:sA"
      captureSeconds := true
      altFormats := defaultAltFormats ++ "|h:i:sA|hi:sA|h:isA|gisA|hisA|g:i:sA|gi:sA|g:isA"
      minText := defaultMinText
      maxText := defaultMaxText
      invalidText := defaultInvalidText
      invalidTextFormat := "HH:MM:SS AM/PM" }
  else
    { format := "h:iA"
      captureSeconds := false
      altFormats := defaultAltFormats
      minText := defaultMinText
      maxText := defaultMaxText
      invalidText := defaultInvalidText
      invalidTextFormat := "HH:MM AM/PM" }

/-- The field's configuration with `captureSeconds: false` (the class
default). -/
def cfgDefault : Config := initConfig false

/-- JavaScript string concatenation `value + meridiem` performed by
`parseDate`; an undefined meridiem concatenates as `"undefined"`. -/
def jsConcatMer (s : String) (mer : Option String) : String :=
  s ++ mer.getD undefinedStr

/-- Field-level part of `clearDate`: reset day, month and year to the
current date (in that order, through the `Date` mutators) and zero the
seconds unless `captureSeconds` is set.  The `Ext.isDate` guard lives in
`clearDate` below; `safeParse` only reaches this with an actual date. -/
def clearDateFields (cfg : Config) (now : JSDate) (d0 : JSDate) : JSDate :=
  let d1 := jsSetDate d0 now.day
  let d2 := jsSetMonth d1 now.month
  let d3 := jsSetFullYear d2 now.year
  if cfg.captureSeconds then d3 else jsSetSeconds d3 0

/-- Model of the component's `clearDate`: non-dates pass through. -/
def clearDate (cfg : Config) (now : JSDate) (v : JSVal) : JSVal :=
  match v with
  | .date d => .date (clearDateFields cfg now d)
  | x => x

/-- Model of the component's `safeParse`: `Ext.Date.parse` then
`clearDate` on success, null (here `none`) on failure. -/
def safeParse (cfg : Config) (now : JSDate) (value : String) (format : String) :
    Option JSDate :=
  (extDateParse now value format).map (clearDateFields cfg now)

/-- The `for` loop of `parseDate` over the alternate formats: try each in
order while no parse succeeded. -/
def parseAlts (cfg : Config) (now : JSDate) (appended : String) :
    List String → Option JSDate
  | [] => none
  | f :: fs =>
    match safeParse cfg now appended f with
    | some d => some d
    | none => parseAlts cfg now appended fs

/-- Worker for `jsSplit`: split at every separator occurrence,
accumulating the current piece in reverse. -/
def jsSplitAux (sep : Char) : List Char → List Char → List String
  | [], cur => [⟨cur.reverse⟩]
  | c :: cs, cur =>
    if c = sep then ⟨cur.reverse⟩ :: jsSplitAux sep cs []
    else jsSplitAux sep cs (c :: cur)

/-- Model of JavaScript `String.prototype.split` with a one-character
separator, as in `altFormats.split('|')`. -/
def jsSplit (s : String) (sep : Char) : List String := jsSplitAux sep s.data []

/-- Model of the component's `parseDate`.  Falsy values and dates are
returned unchanged; a non-empty string gets the current meridiem value
appended and is matched against the primary format, then against each
alternate format in order, yielding the first successful `safeParse` or
null. -/
def parseDate (cfg : Config) (now : JSDate) (mer : Option String) (value : JSVal) :
    JSVal :=
  match value with
  | .str s =>
    if s.isEmpty then .str s
    else
      match safeParse cfg now (jsConcatMer s mer) cfg.format with
      | some d => .date d
      | none =>
        if cfg.altFormats.isEmpty then .null
        else jsOfOption (parseAlts cfg now (jsConcatMer s mer) (jsSplit cfg.altFormats '|'))
  | v => v

/-- Model of the component's `formatDate`: dates are rendered with the
configured format, everything else passes through. -/
def formatDate (cfg : Config) (v : JSVal) : JSVal :=
  match v with
  | .date d => .str (extDateFormat d cfg.format)
  | x => x

/-- Model of the component's `rawToValue`:
`parseDate(rawValue) || rawValue || null`. -/
def rawToValue (cfg : Config) (now : JSDate) (mer : Option String) (rawValue : JSVal) :
    JSVal :=
  jsOr (jsOr (parseDate cfg now mer rawValue) rawValue) JSVal.null

/-- Model of the component's `valueToRaw`:
`formatDate(parseDate(value))`. -/
def valueToRaw (cfg : Config) (now : JSDate) (mer : Option String) (value : JSVal) :
    JSVal :=
  formatDate cfg (parseDate cfg now mer value)

/-- Model of `setMinValue`: strings are parsed, everything else is stored
as passed. -/
def setMinValue (cfg : Config) (now : JSDate) (mer : Option String) (value : JSVal) :
    JSVal :=
  match value with
  | .str s => parseDate cfg now mer (.str s)
  | v => v

/-- Model of `setMaxValue`: strings are parsed, everything else is stored
as passed. -/
def setMaxValue (cfg : Config) (now : JSDate) (mer : Option String) (value : JSVal) :
    JSVal :=
  match value with
  | .str s => parseDate cfg now mer (.str s)
  | v => v

/-- JavaScript `formattedValue.length < 1` as used by `getErrors`; a
`length` read on a non-string is `undefined` and `undefined < 1` is false
(the null case was already filtered by the `=== null` test). -/
def jsLenLt1 : JSVal → Bool
  | .str s => s.length < 1
  | _ => false

/-- String coercion used when concatenating `formattedValue + ' '`; in
`getErrors` the operand is always a string already. -/
def jsText : JSVal → String
  | .str s => s
  | .null => "null"
  | .undef => undefinedStr
  | .date _ => "[date]"

/-- The `me.meridiemValue` half of the invalid-format message. -/
def merDisplay (mer : Option String) : String := mer.getD undefinedStr

/-- Model of the component's `getErrors`.  `base` is the error list the
`callParent` text validations returned; `value` is the optional argument
and `rawValue` the processed raw value it defaults to.  The stored
`minValue`/`maxValue` hold a date or are unset/null. -/
def getErrors (cfg : Config) (now : JSDate) (mer : Option String)
    (minValue maxValue : Option JSDate) (value : JSVal) (rawValue : String)
    (base : List String) : List String :=
  let formattedValue := formatDate cfg (jsOr value (.str rawValue))
  if formattedValue = JSVal.null ∨ jsLenLt1 formattedValue then base
  else
    let parsedValue := parseDate cfg now mer formattedValue
    if jsTruthy parsedValue = false then
      base ++ [strFmt cfg.invalidText
        [jsText formattedValue ++ " " ++ merDisplay mer, cfg.invalidTextFormat]]
    else
      match parsedValue with
      | .date p =>
        let time := p.getTime
        base ++
          (match minValue with
           | some mv =>
             if time < mv.getTime then [strFmt cfg.minText [extDateFormat mv cfg.format]]
             else []
           | none => []) ++
          (match maxValue with
           | some mv =>
             if mv.getTime < time then [strFmt cfg.maxText [extDateFormat mv cfg.format]]
             else []
           | none => [])
      | _ => base

def emptyStr : String := ""

def amStr : String := "AM"

def pmStr : String := "PM"

/-- Truthiness of the `meridiemValue` member (`undefined` before any set). -/
def jsTruthyStrOpt : Option String → Bool
  | none => false
  | some s => !s.isEmpty

/-- JavaScript `raw.substring(raw.length - 2)`: the last two characters
(the start index clamps at 0, so shorter strings come back whole). -/
def substringLast2 (s : String) : String := ⟨s.data.drop (s.data.length - 2)⟩

/-- Meridiem state after the raw-string inspection at the start of
`setValue`: when `valueToRaw` produced a string, its last two characters
are extracted and, if truthy, installed via `setMeridiemValue`; otherwise
the previous meridiem is kept. -/
def setValueExtractMeridiem (cfg : Config) (now : JSDate) (mer : Option String)
    (value : JSVal) : Option String :=
  match valueToRaw cfg now mer value with
  | .str raw =>
    let m := substringLast2 raw
    if m.isEmpty then mer else some m
  | _ => mer

/-- Meridiem state when `setValue` returns: the extracted/previous value
when truthy, else the wall-clock default
`new Date().getHours() >= 12 ? 'PM' : 'AM'`. -/
def setValueFinalMeridiem (cfg : Config) (now : JSDate) (mer : Option String)
    (value : JSVal) : String :=
  let m1 := setValueExtractMeridiem cfg now mer value
  if jsTruthyStrOpt m1 then m1.getD emptyStr
  else if 12 ≤ now.hours then pmStr else amStr

def hisStr : String := "his"

def hisAStr : String := "hisA"

/-- Outcome of the picker `select` listener `onSelect`: the meridiem that
was installed, the value passed to `setValue` and fired with the `select`
event (when the field had a truthy value), whether `select` fired, and
that the picker collapsed. -/
structure OnSelectResult where
  meridiemValue : String
  newValue : Option JSVal
  selectFired : Bool
  collapsed : Bool
  deriving DecidableEq

/-- Model of `onSelect`: install the selected record's `code` as meridiem;
when the current value is truthy, re-parse `Ext.Date.format(value, 'his')`
plus the selected meridiem with format `hisA`, pass the result to
`setValue` and fire `select` with it; collapse either way.  A truthy
non-date value would make `Ext.Date.format` raise a `TypeError`, modelled
as `none`. -/
def onSelect (now : JSDate) (code : String) (value : JSVal) : Option OnSelectResult :=
  if jsTruthy value then
    match value with
    | .date d =>
      let newValue := jsOfOption (extDateParse now (extDateFormat d hisStr ++ code) hisAStr)
      some ⟨code, some newValue, true, true⟩
    | _ => none
  else some ⟨code, none, false, true⟩

/-- A concrete current date used to instantiate the theorems:
October 11th 2026 at 12:00 local time. -/
def now0 : JSDate := ⟨2026, 9, 11, 12, 0, 0, 0⟩

theorem digitChar_toNat (k : Nat) : (digitChar k).toNat = 48 + k % 10 := by
  have hk : k % 10 < 10 := Nat.mod_lt _ (by norm_num)
  unfold digitChar
  revert hk
  generalize k % 10 = r
  intro hk
  interval_cases r <;> decide

theorem natToChars_lt10 (n : Nat) (h : n < 10) : natToChars n = [digitChar n] := by
  simp [natToChars, natToCharsAux, h]

theorem natToCharsAux_two (fuel n : Nat) (acc : List Char) (h10 : 10 ≤ n)
    (h100 : n < 100) :
    natToCharsAux (fuel + 2) n acc = digitChar (n / 10) :: digitChar n :: acc := by
  have h1 : ¬ n < 10 := by omega
  have h2 : n / 10 < 10 := by omega
  simp [natToCharsAux, h1, h2]

theorem natToChars_two (n : Nat) (h10 : 10 ≤ n) (h100 : n < 100) :
    natToChars n = [digitChar (n / 10), digitChar n] := by
  have he : n + 1 = (n - 1) + 2 := by omega
  rw [natToChars, he, natToCharsAux_two (n - 1) n [] h10 h100]

theorem pad2_eq (n : Nat) (h : n < 100) :
    pad2 n = [digitChar (n / 10), digitChar n] := by
  by_cases h10 : n < 10
  · have h0 : n / 10 = 0 := by omega
    rw [pad2, natToChars_lt10 n h10, h0]
    have : digitChar 0 = '0' := by decide
    simp [leftPad, this]
  · rw [pad2, natToChars_two n (by omega) h, leftPad]
    simp

theorem pad2_length (n : Nat) (h : n < 100) : (pad2 n).length = 2 := by
  rw [pad2_eq n h]
  rfl

theorem matchToks_nil_nil (acc : Acc) : matchToks [] [] acc = some acc := rfl

theorem matchToks_lit (c : Char) (toks : List Tok) (rest : List Char) (acc : Acc) :
    matchToks (Tok.lit c :: toks) (c :: rest) acc = matchToks toks rest acc := by
  simp [matchToks]

theorem matchToks_th (n : Nat) (h1 : 1 ≤ n) (h12 : n ≤ 12) (toks : List Tok)
    (rest : List Char) (acc : Acc) :
    matchToks (Tok.th :: toks) (pad2 n ++ rest) acc =
      matchToks toks rest { acc with h := some n } := by
  rw [pad2_eq n (by omega)]
  simp only [List.cons_append, List.nil_append, matchToks]
  by_cases hn : n < 10
  · have hd : n / 10 = 0 := by omega
    have hguard : (digitChar (n / 10)).toNat = 48 ∧ 49 ≤ (digitChar n).toNat ∧
        (digitChar n).toNat ≤ 57 := by
      rw [digitChar_toNat, digitChar_toNat, hd]
      omega
    rw [if_pos (Or.inr hguard)]
    have hv : d2 (digitChar (n / 10)) (digitChar n) = n := by
      unfold d2
      rw [digitChar_toNat, digitChar_toNat, hd]
      omega
    rw [hv]
  · have hd : n / 10 = 1 := by omega
    have hguard : (digitChar (n / 10)).toNat = 49 ∧ 48 ≤ (digitChar n).toNat ∧
        (digitChar n).toNat ≤ 50 := by
      rw [digitChar_toNat, digitChar_toNat, hd]
      omega
    rw [if_pos (Or.inl hguard)]
    have hv : d2 (digitChar (n / 10)) (digitChar n) = n := by
      unfold d2
      rw [digitChar_toNat, digitChar_toNat, hd]
      omega
    rw [hv]

theorem matchToks_ti (n : Nat) (h : n ≤ 59) (toks : List Tok) (rest : List Char)
    (acc : Acc) :
    matchToks (Tok.ti :: toks) (pad2 n ++ rest) acc =
      matchToks toks rest { acc with i := some n } := by
  rw [pad2_eq n (by omega)]
  simp only [List.cons_append, List.nil_append, matchToks]
  have hd : n / 10 ≤ 5 := by omega
  have hguard : 48 ≤ (digitChar (n / 10)).toNat ∧ (digitChar (n / 10)).toNat ≤ 53 ∧
      48 ≤ (digitChar n).toNat ∧ (digitChar n).toNat ≤ 57 := by
    rw [digitChar_toNat, digitChar_toNat]
    omega
  rw [if_pos hguard]
  have hv : d2 (digitChar (n / 10)) (digitChar n) = n := by
    unfold d2
    rw [digitChar_toNat, digitChar_toNat]
    omega
  rw [hv]

theorem matchToks_tsec (n : Nat) (h : n ≤ 59) (toks : List Tok) (rest : List Char)
    (acc : Acc) :
    matchToks (Tok.ts :: toks) (pad2 n ++ rest) acc =
      matchToks toks rest { acc with s := some n } := by
  rw [pad2_eq n (by omega)]
  simp only [List.cons_append, List.nil_append, matchToks]
  have hd : n / 10 ≤ 5 := by omega
  have hguard : 48 ≤ (digitChar (n / 10)).toNat ∧ (digitChar (n / 10)).toNat ≤ 53 ∧
      48 ≤ (digitChar n).toNat ∧ (digitChar n).toNat ≤ 57 := by
    rw [digitChar_toNat, digitChar_toNat]
    omega
  rw [if_pos hguard]
  have hv : d2 (digitChar (n / 10)) (digitChar n) = n := by
    unfold d2
    rw [digitChar_toNat, digitChar_toNat]
    omega
  rw [hv]

theorem matchToks_tA_AM (toks : List Tok) (rest : List Char) (acc : Acc) :
    matchToks (Tok.tA :: toks) ('A' :: 'M' :: rest) acc =
      matchToks toks rest { acc with isPM := some false } := by
  simp [matchToks]

theorem matchToks_tA_PM (toks : List Tok) (rest : List Char) (acc : Acc) :
    matchToks (Tok.tA :: toks) ('P' :: 'M' :: rest) acc =
      matchToks toks rest { acc with isPM := some true } := by
  simp [matchToks]

/-- Ranges the capture groups can hold: hours 0-12 before the meridiem
adjustment, minutes and seconds 0-59. -/
def AccBounds (acc : Acc) : Prop :=
  acc.h.getD 0 ≤ 12 ∧ acc.i.getD 0 ≤ 59 ∧ acc.s.getD 0 ≤ 59

theorem matchToks_bounds : ∀ (toks : List Tok) (cs : List Char) (acc acc' : Acc),
    matchToks toks cs acc = some acc' → AccBounds acc → AccBounds acc'
  | [], cs, acc, acc' => by
    intro h hb
    simp only [matchToks] at h
    split at h
    · cases h
      exact hb
    · cases h
  | Tok.lit c :: toks, cs, acc, acc' => by
    intro h hb
    cases cs with
    | nil => simp [matchToks] at h
    | cons c1 rest =>
      simp only [matchToks] at h
      split at h
      · exact matchToks_bounds toks rest acc acc' h hb
      · cases h
  | Tok.th :: toks, cs, acc, acc' => by
    intro h hb
    match cs with
    | [] => simp [matchToks] at h
    | [c1] => simp [matchToks] at h
    | c1 :: c2 :: rest =>
      simp only [matchToks] at h
      split at h
      · rename_i hg
        refine matchToks_bounds toks rest _ acc' h ⟨?_, hb.2.1, hb.2.2⟩
        show d2 c1 c2 ≤ 12
        unfold d2
        rcases hg with ⟨h1, h2, h3⟩ | ⟨h1, h2, h3⟩ <;> omega
      · cases h
  | Tok.tg :: toks, cs, acc, acc' => by
    intro h hb
    match cs with
    | [] => simp [matchToks] at h
    | [c1] =>
      simp only [matchToks] at h
      split at h
      · rename_i hg
        refine matchToks_bounds toks [] _ acc' h ⟨?_, hb.2.1, hb.2.2⟩
        show c1.toNat - 48 ≤ 12
        omega
      · cases h
    | c1 :: c2 :: rest =>
      simp only [matchToks] at h
      split at h
      · rename_i r heq
        cases h
        split at heq
        · rename_i hg
          refine matchToks_bounds toks rest _ _ heq ⟨?_, hb.2.1, hb.2.2⟩
          show d2 c1 c2 ≤ 12
          unfold d2
          omega
        · cases heq
      · split at h
        · rename_i hg
          refine matchToks_bounds toks (c2 :: rest) _ acc' h ⟨?_, hb.2.1, hb.2.2⟩
          show c1.toNat - 48 ≤ 12
          omega
        · cases h
  | Tok.ti :: toks, cs, acc, acc' => by
    intro h hb
    match cs with
    | [] => simp [matchToks] at h
    | [c1] => simp [matchToks] at h
    | c1 :: c2 :: rest =>
      simp only [matchToks] at h
      split at h
      · rename_i hg
        refine matchToks_bounds toks rest _ acc' h ⟨hb.1, ?_, hb.2.2⟩
        show d2 c1 c2 ≤ 59
        unfold d2
        omega
      · cases h
  | Tok.ts :: toks, cs, acc, acc' => by
    intro h hb
    match cs with
    | [] => simp [matchToks] at h
    | [c1] => simp [matchToks] at h
    | c1 :: c2 :: rest =>
      simp only [matchToks] at h
      split at h
      · rename_i hg
        refine matchToks_bounds toks rest _ acc' h ⟨hb.1, hb.2.1, ?_⟩
        show d2 c1 c2 ≤ 59
        unfold d2
        omega
      · cases h
  | Tok.tA :: toks, cs, acc, acc' => by
    intro h hb
    match cs with
    | [] => simp [matchToks] at h
    | [c1] => simp [matchToks] at h
    | c1 :: c2 :: rest =>
      simp only [matchToks] at h
      split at h
      · exact matchToks_bounds toks rest _ acc' h ⟨hb.1, hb.2.1, hb.2.2⟩
      · split at h
        · exact matchToks_bounds toks rest _ acc' h ⟨hb.1, hb.2.1, hb.2.2⟩
        · cases h

/-- Longest input an anchored match of one format code can consume. -/
def tokMax : Tok → Nat
  | .lit _ => 1
  | _ => 2

theorem matchToks_length : ∀ (toks : List Tok) (cs : List Char) (acc acc' : Acc),
    matchToks toks cs acc = some acc' → cs.length ≤ (toks.map tokMax).sum
  | [], cs, acc, acc' => by
    intro h
    simp only [matchToks] at h
    split at h
    · rename_i he
      simp [List.isEmpty_iff] at he
      simp [he]
    · cases h
  | Tok.lit c :: toks, cs, acc, acc' => by
    intro h
    cases cs with
    | nil => simp
    | cons c1 rest =>
      simp only [matchToks] at h
      split at h
      · have := matchToks_length toks rest acc acc' h
        simp [tokMax]
        omega
      · cases h
  | Tok.th :: toks, cs, acc, acc' => by
    intro h
    match cs with
    | [] => simp
    | [c1] => simp [matchToks] at h
    | c1 :: c2 :: rest =>
      simp only [matchToks] at h
      split at h
      · have := matchToks_length toks rest _ acc' h
        simp [tokMax]
        omega
      · cases h
  | Tok.tg :: toks, cs, acc, acc' => by
    intro h
    match cs with
    | [] => simp
    | [c1] =>
      simp only [matchToks] at h
      split at h
      · have := matchToks_length toks [] _ acc' h
        simp [tokMax]
        omega
      · cases h
    | c1 :: c2 :: rest =>
      simp only [matchToks] at h
      split at h
      · rename_i r heq
        cases h
        split at heq
        · have := matchToks_length toks rest _ _ heq
          simp [tokMax]
          omega
        · cases heq
      · split at h
        · have := matchToks_length toks (c2 :: rest) _ acc' h
          simp [tokMax] at *
          omega
        · cases h
  | Tok.ti :: toks, cs, acc, acc' => by
    intro h
    match cs with
    | [] => simp
    | [c1] => simp [matchToks] at h
    | c1 :: c2 :: rest =>
      simp only [matchToks] at h
      split at h
      · have := matchToks_length toks rest _ acc' h
        simp [tokMax]
        omega
      · cases h
  | Tok.ts :: toks, cs, acc, acc' => by
    intro h
    match cs with
    | [] => simp
    | [c1] => simp [matchToks] at h
    | c1 :: c2 :: rest =>
      simp only [matchToks] at h
      split at h
      · have := matchToks_length toks rest _ acc' h
        simp [tokMax]
        omega
      · cases h
  | Tok.tA :: toks, cs, acc, acc' => by
    intro h
    match cs with
    | [] => simp
    | [c1] => simp [matchToks] at h
    | c1 :: c2 :: rest =>
      simp only [matchToks] at h
      split at h
      · have := matchToks_length toks rest _ acc' h
        simp [tokMax]
        omega
      · split at h
        · have := matchToks_length toks rest _ acc' h
          simp [tokMax]
          omega
        · cases h

theorem applyAM_le (o : Option Nat) (h : o.getD 0 ≤ 12) : applyAM o ≤ 12 := by
  cases o with
  | none => simp [applyAM]
  | some hv =>
    simp only [Option.getD_some] at h
    simp only [applyAM]
    split <;> omega

theorem applyPM_le (o : Option Nat) (h : o.getD 0 ≤ 12) : applyPM o ≤ 23 := by
  cases o with
  | none => simp [applyPM]
  | some hv =>
    simp only [Option.getD_some] at h
    simp only [applyPM]
    split <;> omega

theorem accHours_le23 (acc : Acc) (hb : acc.h.getD 0 ≤ 12) : accHours acc ≤ 23 := by
  unfold accHours
  cases acc.isPM with
  | none =>
    show acc.h.getD 0 ≤ 23
    omega
  | some b =>
    cases b with
    | false =>
      show applyAM acc.h ≤ 23
      exact le_trans (applyAM_le acc.h hb) (by omega)
    | true =>
      show applyPM acc.h ≤ 23
      exact applyPM_le acc.h hb

theorem mkDateNorm_inRange (y : Int) (m d h i s ms : Nat) (hm : m ≤ 11) (hd1 : 1 ≤ d)
    (hd2 : d ≤ daysInMonth y m) (hh : h ≤ 23) (hi : i ≤ 59) (hs : s ≤ 59)
    (hms : ms ≤ 999) :
    mkDateNorm y m d h i s ms = ⟨y, m, d, h, i, s, ms⟩ := by
  unfold mkDateNorm
  simp only [Int.toNat_natCast]
  rw [if_pos]
  refine ⟨by omega, by omega, by omega, by exact_mod_cast hd2, by omega, by omega,
    by omega, by omega, by omega, by omega, by omega, by omega⟩

theorem extDateParse_fields (now : JSDate) (hnow : validDate now) (input fmt : String)
    (d : JSDate) (h : extDateParse now input fmt = some d) :
    d.year = now.year ∧ d.month = now.month ∧ d.day = now.day ∧
      d.hours ≤ 23 ∧ d.minutes ≤ 59 ∧ d.seconds ≤ 59 ∧ d.ms = 0 := by
  obtain ⟨hm11, hd1, hd2, _, _, _, _⟩ := hnow
  unfold extDateParse at h
  rw [Option.map_eq_some'] at h
  obtain ⟨acc, hmt, hmk⟩ := h
  have hb : AccBounds acc := by
    refine matchToks_bounds _ _ _ _ hmt ⟨?_, ?_, ?_⟩ <;> simp
  have hrw := mkDateNorm_inRange now.year now.month now.day (accHours acc)
    (acc.i.getD 0) (acc.s.getD 0) 0 hm11 hd1 hd2 (accHours_le23 acc hb.1)
    hb.2.1 hb.2.2 (by omega)
  rw [Nat.cast_zero] at hrw
  rw [hrw] at hmk
  rw [← hmk]
  exact ⟨rfl, rfl, rfl, accHours_le23 acc hb.1, hb.2.1, hb.2.2, rfl⟩

theorem clearDateFields_of_now (cfg : Config) (now : JSDate) (hnow : validDate now)
    (p : JSDate) (hy : p.year = now.year) (hm : p.month = now.month)
    (hd : p.day = now.day) (hh : p.hours ≤ 23) (hi : p.minutes ≤ 59)
    (hs : p.seconds ≤ 59) (hms : p.ms ≤ 999) :
    clearDateFields cfg now p =
      ⟨now.year, now.month, now.day, p.hours, p.minutes,
        if cfg.captureSeconds then p.seconds else 0, p.ms⟩ := by
  obtain ⟨hm11, hd1, hd2, _, _, _, _⟩ := hnow
  have e1 : jsSetDate p now.day =
      (⟨p.year, p.month, now.day, p.hours, p.minutes, p.seconds, p.ms⟩ : JSDate) := by
    unfold jsSetDate
    exact mkDateNorm_inRange p.year p.month now.day p.hours p.minutes p.seconds p.ms
      (by omega) hd1 (by rw [hy, hm]; exact hd2) hh hi hs hms
  have e2 : jsSetMonth (⟨p.year, p.month, now.day, p.hours, p.minutes, p.seconds,
        p.ms⟩ : JSDate) now.month =
      (⟨p.year, now.month, now.day, p.hours, p.minutes, p.seconds, p.ms⟩ : JSDate) := by
    unfold jsSetMonth
    exact mkDateNorm_inRange p.year now.month now.day p.hours p.minutes p.seconds p.ms
      hm11 hd1 (by rw [hy]; exact hd2) hh hi hs hms
  have e3 : jsSetFullYear (⟨p.year, now.month, now.day, p.hours, p.minutes, p.seconds,
        p.ms⟩ : JSDate) now.year =
      (⟨now.year, now.month, now.day, p.hours, p.minutes, p.seconds, p.ms⟩ : JSDate) := by
    unfold jsSetFullYear
    exact mkDateNorm_inRange now.year now.month now.day p.hours p.minutes p.seconds p.ms
      hm11 hd1 hd2 hh hi hs hms
  have e4 : jsSetSeconds (⟨now.year, now.month, now.day, p.hours, p.minutes, p.seconds,
        p.ms⟩ : JSDate) 0 =
      (⟨now.year, now.month, now.day, p.hours, p.minutes, 0, p.ms⟩ : JSDate) := by
    unfold jsSetSeconds
    have := mkDateNorm_inRange now.year now.month now.day p.hours p.minutes 0 p.ms
      hm11 hd1 hd2 hh hi (by omega) hms
    exact_mod_cast this
  simp only [clearDateFields]
  rw [e1, e2, e3]
  cases hcs : cfg.captureSeconds
  · simp only [Bool.false_eq_true, if_false]
    exact e4
  · simp only [if_true]

theorem safeParse_fields (cfg : Config) (now : JSDate) (hnow : validDate now)
    (input fmt : String) (d : JSDate) (h : safeParse cfg now input fmt = some d) :
    d.year = now.year ∧ d.month = now.month ∧ d.day = now.day ∧
      d.hours ≤ 23 ∧ d.minutes ≤ 59 ∧ d.seconds ≤ 59 ∧ d.ms = 0 ∧
      (cfg.captureSeconds = false → d.seconds = 0) := by
  unfold safeParse at h
  rw [Option.map_eq_some'] at h
  obtain ⟨p, hp, hcd⟩ := h
  obtain ⟨f1, f2, f3, f4, f5, f6, f7⟩ := extDateParse_fields now hnow input fmt p hp
  have hcl := clearDateFields_of_now cfg now hnow p f1 f2 f3 f4 f5 f6 (by omega)
  rw [hcl] at hcd
  rw [← hcd]
  refine ⟨rfl, rfl, rfl, f4, f5, ?_, f7, ?_⟩
  · show (if cfg.captureSeconds then p.seconds else 0) ≤ 59
    split
    · exact f6
    · exact Nat.zero_le 59
  · intro hcs
    rw [hcs]
    rfl

theorem parseAlts_eq_findSome (cfg : Config) (now : JSDate) (appended : String) :
    ∀ l : List String,
      parseAlts cfg now appended l = l.findSome? (fun f => safeParse cfg now appended f)
  | [] => rfl
  | f :: fs => by
    simp only [parseAlts, List.findSome?]
    cases safeParse cfg now appended f with
    | none => exact parseAlts_eq_findSome cfg now appended fs
    | some d => rfl

theorem parseAlts_some (cfg : Config) (now : JSDate) (appended : String) :
    ∀ (l : List String) (d : JSDate), parseAlts cfg now appended l = some d →
      ∃ f, safeParse cfg now appended f = some d
  | [], d => by
    intro h
    simp [parseAlts] at h
  | f :: fs, d => by
    intro h
    simp only [parseAlts] at h
    cases hf : safeParse cfg now appended f with
    | none =>
      rw [hf] at h
      exact parseAlts_some cfg now appended fs d h
    | some d0 =>
      rw [hf] at h
      cases h
      exact ⟨f, hf⟩

theorem jsOfOption_eq_date (o : Option JSDate) (d : JSDate) :
    jsOfOption o = .date d ↔ o = some d := by
  cases o <;> simp [jsOfOption]

theorem parseDate_str_date (cfg : Config) (now : JSDate) (mer : Option String)
    (s : String) (d : JSDate) (h : parseDate cfg now mer (.str s) = .date d) :
    ∃ f, safeParse cfg now (jsConcatMer s mer) f = some d := by
  simp only [parseDate] at h
  split at h
  · cases h
  · split at h
    · rename_i d0 heq
      cases h
      exact ⟨cfg.format, heq⟩
    · split at h
      · cases h
      · rw [jsOfOption_eq_date] at h
        exact parseAlts_some cfg now (jsConcatMer s mer) _ d h

theorem str_length_lt1_iff (s : String) : s.length < 1 ↔ s = "" := by
  constructor
  · intro h
    have hlen : s.data.length = 0 := by
      have he : s.length = s.data.length := rfl
      omega
    have hd : s.data = [] := List.length_eq_zero.mp hlen
    cases s with
    | mk data =>
      simp only at hd
      rw [hd]
  · intro h
    rw [h]
    decide

theorem jsTruthy_jsOr (a b : JSVal) : jsTruthy (jsOr a b) = (jsTruthy a || jsTruthy b) := by
  unfold jsOr
  cases ha : jsTruthy a <;> simp [ha]

theorem formatDate_jsOr_str (cfg : Config) (value : JSVal) (raw : String) :
    ∃ s : String, formatDate cfg (jsOr value (.str raw)) = .str s := by
  cases value with
  | null => exact ⟨raw, rfl⟩
  | undef => exact ⟨raw, rfl⟩
  | date d => exact ⟨extDateFormat d cfg.format, rfl⟩
  | str s =>
    unfold jsOr
    cases hq : jsTruthy (JSVal.str s)
    · exact ⟨raw, by simp [formatDate]⟩
    · exact ⟨s, by simp [formatDate]⟩

/-- C1: on every non-empty raw string, `parseDate` appends the current
meridiem value to the string, tries the primary configured format, then
the formats of the altFormats list in order, and returns the first
successful `safeParse` (which clears the date portion via `clearDate`),
or null when every format fails. -/
theorem claim1_parseDate_tries_formats (cfg : Config) (now : JSDate) (mer : String)
    (s : String) (hs : s ≠ "") (halt : cfg.altFormats ≠ "") :
    parseDate cfg now (some mer) (.str s) =
      jsOfOption ((cfg.format :: jsSplit cfg.altFormats '|').findSome?
        (fun f => safeParse cfg now (s ++ mer) f)) := by
  have hse : s.isEmpty = false := by
    cases hq : s.isEmpty
    · rfl
    · exact absurd ((String.isEmpty_iff s).mp hq) hs
  have halt2 : cfg.altFormats.isEmpty = false := by
    cases hq : cfg.altFormats.isEmpty
    · rfl
    · exact absurd ((String.isEmpty_iff _).mp hq) halt
  have hcm : jsConcatMer s (some mer) = s ++ mer := rfl
  simp only [parseDate, hse, Bool.false_eq_true, if_false, hcm]
  cases hp : safeParse cfg now (s ++ mer) cfg.format with
  | some d => simp [List.findSome?_cons, hp, jsOfOption]
  | none =>
    simp only [halt2, Bool.false_eq_true, if_false]
    rw [parseAlts_eq_findSome]
    simp [List.findSome?_cons, hp]

theorem claim1_witness :
    (("345" : String) ≠ "") ∧ (cfgDefault.altFormats ≠ "") ∧
      parseDate cfgDefault now0 (some "PM") (.str "345") =
        jsOfOption ((cfgDefault.format :: jsSplit cfgDefault.altFormats '|').findSome?
          (fun f => safeParse cfgDefault now0 ("345" ++ "PM") f)) :=
  ⟨by decide, by decide,
    claim1_parseDate_tries_formats cfgDefault now0 "PM" "345" (by decide) (by decide)⟩

/-- C4 counterexample: a Date-typed bound is stored by `setMinValue`
unchanged, keeping its own date portion (here the year 2000), which is
not the current date — the claimed invariant fails for bounds set from
Date values. -/
theorem claim4_counterexample :
    setMinValue cfgDefault now0 (some "PM") (.date ⟨2000, 0, 1, 9, 30, 0, 0⟩) =
        .date ⟨2000, 0, 1, 9, 30, 0, 0⟩ ∧
      (⟨2000, 0, 1, 9, 30, 0, 0⟩ : JSDate).year ≠ now0.year := by
  decide

/-- C4 (amended): every TimeValue produced by parsing a string (through
`parseDate`/`safeParse`/`clearDate`) has its date portion equal to the
current date, provided the current date is a valid calendar date; but
Date-typed values pass through `parseDate`, `setMinValue` and
`setMaxValue` unchanged, so a bound supplied as a Date object keeps its
own date portion. -/
theorem claim4_amended_parsed_date_is_today (cfg : Config) (now : JSDate)
    (hnow : validDate now) (mer : Option String) (s : String) (d : JSDate)
    (hp : parseDate cfg now mer (.str s) = .date d) :
    d.year = now.year ∧ d.month = now.month ∧ d.day = now.day := by
  obtain ⟨f, hf⟩ := parseDate_str_date cfg now mer s d hp
  obtain ⟨h1, h2, h3, _⟩ := safeParse_fields cfg now hnow (jsConcatMer s mer) f d hf
  exact ⟨h1, h2, h3⟩

theorem claim4_witness :
    validDate now0 ∧
      ((⟨2026, 9, 11, 15, 45, 0, 0⟩ : JSDate).year = now0.year ∧
        (⟨2026, 9, 11, 15, 45, 0, 0⟩ : JSDate).month = now0.month ∧
        (⟨2026, 9, 11, 15, 45, 0, 0⟩ : JSDate).day = now0.day) :=
  ⟨by decide,
    claim4_amended_parsed_date_is_today cfgDefault now0 (by decide) (some "PM") "3:45"
      ⟨2026, 9, 11, 15, 45, 0, 0⟩ (by decide)⟩

/-- C7 counterexample: the empty string is a falsy raw input, yet
`parseDate` returns it unchanged — the empty string, not null. -/
theorem claim7_counterexample :
    parseDate cfgDefault now0 (some "PM") (.str "") = .str "" ∧
      JSVal.str "" ≠ JSVal.null := by
  decide

/-- C7 (amended): every falsy input (null, undefined, the empty string)
is returned by `parseDate` unchanged — a falsy value, but equal to null
only when the input was null — while `rawToValue` maps every falsy raw
input to null; parsing is total, so no exception propagates. -/
theorem claim7_amended_falsy (cfg : Config) (now : JSDate) (mer : Option String)
    (v : JSVal) (hv : jsTruthy v = false) :
    parseDate cfg now mer v = v ∧ rawToValue cfg now mer v = .null := by
  cases v with
  | null => exact ⟨rfl, rfl⟩
  | undef => exact ⟨rfl, rfl⟩
  | date d => simp [jsTruthy] at hv
  | str s =>
    have hse : s.isEmpty = true := by simpa [jsTruthy] using hv
    refine ⟨?_, ?_⟩
    · simp [parseDate, hse]
    · simp [rawToValue, parseDate, hse, jsOr, jsTruthy]

theorem claim7_witness :
    jsTruthy (JSVal.str "") = false ∧
      (parseDate cfgDefault now0 (some "PM") (.str "") = .str "" ∧
        rawToValue cfgDefault now0 (some "PM") (.str "") = .null) :=
  ⟨by decide, claim7_amended_falsy cfgDefault now0 (some "PM") (.str "") (by decide)⟩

/-- C8: whenever `setValue` runs and no truthy meridiem value has been
established (neither previously stored nor extracted from the raw
string), the meridiem defaults from the wall clock: PM when the current
hour is 12 or more, AM otherwise. -/
theorem claim8_meridiem_default (cfg : Config) (now : JSDate) (mer : Option String)
    (value : JSVal)
    (h : jsTruthyStrOpt (setValueExtractMeridiem cfg now mer value) = false) :
    setValueFinalMeridiem cfg now mer value =
      (if 12 ≤ now.hours then pmStr else amStr) := by
  simp only [setValueFinalMeridiem, h, Bool.false_eq_true, if_false]

theorem claim8_witness :
    jsTruthyStrOpt (setValueExtractMeridiem cfgDefault now0 none .null) = false ∧
      setValueFinalMeridiem cfgDefault now0 none .null =
        (if 12 ≤ now0.hours then pmStr else amStr) :=
  ⟨by decide, claim8_meridiem_default cfgDefault now0 none .null (by decide)⟩

/-- C9: `formatDate` renders a Date with the configured format string and
returns every non-Date input (strings, null, undefined) unchanged. -/
theorem claim9_formatDate_spec (cfg : Config) :
    (∀ d : JSDate, formatDate cfg (.date d) = .str (extDateFormat d cfg.format)) ∧
    (∀ v : JSVal, isDateVal v = false → formatDate cfg v = v) := by
  constructor
  · intro d
    rfl
  · intro v hv
    cases v with
    | null => rfl
    | undef => rfl
    | str s => rfl
    | date d => simp [isDateVal] at hv

theorem claim9_witness :
    formatDate cfgDefault (.date ⟨2026, 9, 11, 15, 45, 0, 0⟩) = .str "03:45PM" ∧
      formatDate cfgDefault (.str "3:45") = .str "3:45" := by
  constructor
  · rw [(claim9_formatDate_spec cfgDefault).1 ⟨2026, 9, 11, 15, 45, 0, 0⟩]
    decide
  · exact (claim9_formatDate_spec cfgDefault).2 (.str "3:45") (by decide)

/-- C10: a non-empty raw string that parses under no format becomes the
field value itself under `rawToValue` (the unparsed text, not null), and
`rawToValue` yields null only when the raw input is itself falsy. -/
theorem claim10_rawToValue (cfg : Config) (now : JSDate) (mer : Option String) :
    (∀ s : String, s ≠ "" → parseDate cfg now mer (.str s) = .null →
      rawToValue cfg now mer (.str s) = .str s) ∧
    (∀ v : JSVal, rawToValue cfg now mer v = .null → jsTruthy v = false) := by
  constructor
  · intro s hs hp
    have hse : s.isEmpty = false := by
      cases hq : s.isEmpty
      · rfl
      · exact absurd ((String.isEmpty_iff s).mp hq) hs
    simp [rawToValue, hp, jsOr, jsTruthy, hse]
  · intro v h
    by_contra hvt
    have hv : jsTruthy v = true := by
      cases hq : jsTruthy v
      · exact absurd hq hvt
      · rfl
    have htr : jsTruthy (rawToValue cfg now mer v) = true := by
      unfold rawToValue
      rw [jsTruthy_jsOr, jsTruthy_jsOr, hv]
      simp
    rw [h] at htr
    simp [jsTruthy] at htr

theorem claim10_witness :
    rawToValue cfgDefault now0 (some "PM") (.str "abc") = .str "abc" ∧
      jsTruthy JSVal.null = false :=
  ⟨(claim10_rawToValue cfgDefault now0 (some "PM")).1 "abc" (by decide) (by decide),
    (claim10_rawToValue cfgDefault now0 (some "PM")).2 .null (by decide)⟩

/-- C2: whenever the formatted candidate value re-parses successfully,
`getErrors` appends the "before minimum" error exactly when a minValue is
configured and the parsed time is strictly before it, appends the "after
maximum" error exactly when a maxValue is configured and the parsed time
is strictly after it, appends no bound error within the bounds, and both
checks run — the errors accumulate on top of the base list instead of
short-circuiting. -/
theorem claim2_getErrors_bounds (cfg : Config) (now : JSDate) (mer : Option String)
    (minValue maxValue : Option JSDate) (value : JSVal) (rawValue : String)
    (base : List String) (p : JSDate)
    (hp : parseDate cfg now mer (formatDate cfg (jsOr value (.str rawValue))) = .date p) :
    getErrors cfg now mer minValue maxValue value rawValue base =
      base ++
        (match minValue with
         | some mv =>
           if p.getTime < mv.getTime then [strFmt cfg.minText [extDateFormat mv cfg.format]]
           else []
         | none => []) ++
        (match maxValue with
         | some mv =>
           if mv.getTime < p.getTime then [strFmt cfg.maxText [extDateFormat mv cfg.format]]
           else []
         | none => []) := by
  obtain ⟨s, hfs⟩ := formatDate_jsOr_str cfg value rawValue
  rw [hfs] at hp
  have hs : s ≠ "" := by
    intro hrfl
    rw [hrfl] at hp
    simp only [parseDate] at hp
    rw [if_pos (by decide : ("" : String).isEmpty = true)] at hp
    cases hp
  have hguard : ¬ (JSVal.str s = JSVal.null ∨ jsLenLt1 (JSVal.str s) = true) := by
    rintro (hc | hc)
    · cases hc
    · have hlt : s.length < 1 := by simpa [jsLenLt1] using hc
      exact hs ((str_length_lt1_iff s).mp hlt)
  simp only [getErrors, hfs, hp]
  rw [if_neg hguard, if_neg (by simp [jsTruthy])]

theorem claim2_witness :
    getErrors cfgDefault now0 (some "PM") (some ⟨2026, 9, 11, 16, 0, 0, 0⟩)
        (some ⟨2026, 9, 11, 17, 0, 0, 0⟩) .null "3:45" [] =
      ["The time in this field must be equal to or after 04:00PM"] := by
  have h := claim2_getErrors_bounds cfgDefault now0 (some "PM")
    (some ⟨2026, 9, 11, 16, 0, 0, 0⟩) (some ⟨2026, 9, 11, 17, 0, 0, 0⟩) .null "3:45" []
    ⟨2026, 9, 11, 15, 45, 0, 0⟩ (by decide)
  exact h.trans (by decide)

/-- C3: `getErrors` first formats the candidate and re-parses the
formatted text; when this round-trip re-parse fails, the invalid-format
message naming the expected pattern (`invalidTextFormat`) is appended and
the min/max bound checks are skipped (the configured bounds do not appear
in the result). -/
theorem claim3_getErrors_invalid (cfg : Config) (now : JSDate) (mer : Option String)
    (minValue maxValue : Option JSDate) (value : JSVal) (rawValue : String)
    (base : List String) (s : String)
    (hfs : formatDate cfg (jsOr value (.str rawValue)) = .str s) (hs : s ≠ "")
    (hp : parseDate cfg now mer (.str s) = .null) :
    getErrors cfg now mer minValue maxValue value rawValue base =
      base ++ [strFmt cfg.invalidText [s ++ " " ++ merDisplay mer, cfg.invalidTextFormat]] := by
  have hguard : ¬ (JSVal.str s = JSVal.null ∨ jsLenLt1 (JSVal.str s) = true) := by
    rintro (hc | hc)
    · cases hc
    · have hlt : s.length < 1 := by simpa [jsLenLt1] using hc
      exact hs ((str_length_lt1_iff s).mp hlt)
  simp only [getErrors, hfs, hp]
  rw [if_neg hguard]
  simp [jsTruthy, jsText]

theorem applyAM_h12_lt (H : Nat) (h : H < 12) : applyAM (some (h12 H)) = H := by
  have hm : H % 12 = H := Nat.mod_eq_of_lt h
  by_cases hz : H = 0
  · subst hz
    decide
  · have h1 : h12 H = H := by
      rw [h12, hm, if_neg hz]
    rw [h1]
    have h2 : ¬ (H = 0 ∨ H = 12) := by omega
    simp [applyAM, h2]

theorem applyPM_h12_ge (H : Nat) (h1 : 12 ≤ H) (h2 : H ≤ 23) :
    applyPM (some (h12 H)) = H := by
  by_cases hz : H = 12
  · subst hz
    decide
  · have hm : H % 12 = H - 12 := by omega
    have hz2 : ¬ H % 12 = 0 := by omega
    have h3 : h12 H = H - 12 := by rw [h12, if_neg hz2, hm]
    rw [h3]
    have h4 : H - 12 < 12 := by omega
    simp only [applyPM, h4, if_pos]
    omega

theorem h12_pos (h : Nat) : 1 ≤ h12 h ∧ h12 h ≤ 12 := by
  unfold h12
  split <;> omega

theorem applyAM_h12 (H : Nat) :
    applyAM (some (h12 H)) % 12 = H % 12 ∧ applyAM (some (h12 H)) < 12 := by
  by_cases hz : H % 12 = 0
  · simp [h12, applyAM, hz]
  · have h1 : h12 H = H % 12 := by simp [h12, hz]
    have hm : H % 12 < 12 := Nat.mod_lt _ (by norm_num)
    have h2 : ¬ (H % 12 = 0 ∨ H % 12 = 12) := by omega
    rw [h1]
    simp only [applyAM, h2, if_false]
    omega

theorem applyPM_h12 (H : Nat) :
    applyPM (some (h12 H)) % 12 = H % 12 ∧ 12 ≤ applyPM (some (h12 H)) ∧
      applyPM (some (h12 H)) ≤ 23 := by
  by_cases hz : H % 12 = 0
  · simp [h12, applyPM, hz]
  · have h1 : h12 H = H % 12 := by simp [h12, hz]
    have hm : H % 12 < 12 := Nat.mod_lt _ (by norm_num)
    rw [h1]
    simp only [applyPM, hm, if_pos]
    omega

theorem extDateFormat_his (d : JSDate) :
    (extDateFormat d hisStr).data =
      pad2 (h12 d.hours) ++ (pad2 d.minutes ++ pad2 d.seconds) := by
  have htoks : fmtToks hisStr.data = [Tok.th, Tok.ti, Tok.ts] := by decide
  show ((List.map (renderTok d) (fmtToks hisStr.data)).flatten) =
    pad2 (h12 d.hours) ++ (pad2 d.minutes ++ pad2 d.seconds)
  rw [htoks]
  simp [renderTok]

theorem extDateFormat_hiA (d : JSDate) :
    (extDateFormat d cfgDefault.format).data =
      pad2 (h12 d.hours) ++ (':' :: (pad2 d.minutes ++
        (if d.hours < 12 then ['A', 'M'] else ['P', 'M']))) := by
  have htoks : fmtToks cfgDefault.format.data = [Tok.th, Tok.lit ':', Tok.ti, Tok.tA] := by
    decide
  show (List.map (renderTok d) (fmtToks cfgDefault.format.data)).flatten = _
  rw [htoks]
  simp [renderTok]

theorem extDateFormat_hiA_length (d : JSDate) (hi : d.minutes ≤ 59) :
    (extDateFormat d cfgDefault.format).data.length = 7 := by
  rw [extDateFormat_hiA]
  have h1 : (pad2 (h12 d.hours)).length = 2 :=
    pad2_length _ (by have := (h12_pos d.hours).2; omega)
  have h2 : (pad2 d.minutes).length = 2 := pad2_length _ (by omega)
  by_cases hlt : d.hours < 12 <;>
    simp [hlt, List.length_append, h1, h2]

theorem safeParse_none_of_length (cfg : Config) (now : JSDate) (input fmt : String)
    (h : ((fmtToks fmt.data).map tokMax).sum < input.data.length) :
    safeParse cfg now input fmt = none := by
  unfold safeParse extDateParse
  cases hm : matchToks (fmtToks fmt.data) input.data {} with
  | none => rfl
  | some acc =>
    have := matchToks_length _ _ _ _ hm
    omega

theorem parseAlts_none (cfg : Config) (now : JSDate) (input : String) :
    ∀ l : List String, (∀ f ∈ l, safeParse cfg now input f = none) →
      parseAlts cfg now input l = none
  | [], _ => rfl
  | f :: fs, h => by
    simp only [parseAlts]
    rw [h f (List.mem_cons_self f fs)]
    exact parseAlts_none cfg now input fs (fun g hg => h g (List.mem_cons_of_mem f hg))

theorem parseDate_long_null (now : JSDate) (mer : String) (t : String)
    (ht : t.isEmpty = false)
    (hlen : 8 ≤ (jsConcatMer t (some mer)).data.length) :
    parseDate cfgDefault now (some mer) (.str t) = .null := by
  have hall : ∀ f ∈ cfgDefault.format :: jsSplit cfgDefault.altFormats '|',
      safeParse cfgDefault now (jsConcatMer t (some mer)) f = none := by
    have hsplit : jsSplit cfgDefault.altFormats '|' =
        ["h:iA", "hiA", "g:iA", "giA", "hA", "gA"] := by decide
    rw [hsplit]
    intro f hf
    fin_cases hf <;>
      exact safeParse_none_of_length _ _ _ _ (lt_of_lt_of_le (by decide) hlen)
  simp only [parseDate, ht, Bool.false_eq_true, if_false]
  rw [hall cfgDefault.format (List.mem_cons_self _ _)]
  rw [if_neg (by decide : ¬ cfgDefault.altFormats.isEmpty = true)]
  rw [parseAlts_none cfgDefault now (jsConcatMer t (some mer)) _
    (fun g hg => hall g (List.mem_cons_of_mem _ hg))]
  rfl

theorem safeParse_roundtrip (now : JSDate) (hnow : validDate now) (H I : Nat)
    (hH : H ≤ 23) (hI : I ≤ 59) :
    safeParse cfgDefault now
        (extDateFormat ⟨now.year, now.month, now.day, H, I, 0, 0⟩ cfgDefault.format)
        cfgDefault.format =
      some ⟨now.year, now.month, now.day, H, I, 0, 0⟩ := by
  obtain ⟨hm11, hd1, hd2, hnh, hni, hns, hnms⟩ := hnow
  have h12b : 1 ≤ h12 H ∧ h12 H ≤ 12 := h12_pos H
  have htoks : fmtToks cfgDefault.format.data = [Tok.th, Tok.lit ':', Tok.ti, Tok.tA] := by
    decide
  have hdata := extDateFormat_hiA ⟨now.year, now.month, now.day, H, I, 0, 0⟩
  dsimp only at hdata
  have hin := mkDateNorm_inRange now.year now.month now.day H I 0 0 hm11 hd1 hd2 hH hI
    (by omega) (by omega)
  simp only [Nat.cast_zero] at hin
  have hparse : extDateParse now
      (extDateFormat ⟨now.year, now.month, now.day, H, I, 0, 0⟩ cfgDefault.format)
      cfgDefault.format = some ⟨now.year, now.month, now.day, H, I, 0, 0⟩ := by
    by_cases hlt : H < 12
    · have hmm : matchToks (fmtToks cfgDefault.format.data)
          (extDateFormat ⟨now.year, now.month, now.day, H, I, 0, 0⟩ cfgDefault.format).data
            ({} : Acc) =
          some ⟨some (h12 H), some I, none, some false⟩ := by
        rw [htoks, hdata, if_pos hlt]
        rw [matchToks_th _ h12b.1 h12b.2, matchToks_lit, matchToks_ti _ hI,
          matchToks_tA_AM]
        rfl
      unfold extDateParse
      rw [hmm]
      simp only [Option.map_some', accHours, Option.getD_some, Option.getD_none,
        Nat.cast_zero]
      rw [applyAM_h12_lt H hlt]
      rw [hin]
    · have hmm : matchToks (fmtToks cfgDefault.format.data)
          (extDateFormat ⟨now.year, now.month, now.day, H, I, 0, 0⟩ cfgDefault.format).data
            ({} : Acc) =
          some ⟨some (h12 H), some I, none, some true⟩ := by
        rw [htoks, hdata, if_neg hlt]
        rw [matchToks_th _ h12b.1 h12b.2, matchToks_lit, matchToks_ti _ hI,
          matchToks_tA_PM]
        rfl
      unfold extDateParse
      rw [hmm]
      simp only [Option.map_some', accHours, Option.getD_some, Option.getD_none,
        Nat.cast_zero]
      rw [applyPM_h12_ge H (by omega) hH]
      rw [hin]
  unfold safeParse
  rw [hparse]
  simp only [Option.map_some']
  rw [clearDateFields_of_now cfgDefault now
    ⟨hm11, hd1, hd2, hnh, hni, hns, hnms⟩
    ⟨now.year, now.month, now.day, H, I, 0, 0⟩ rfl rfl rfl hH hI (Nat.zero_le 59)
    (Nat.zero_le 999)]
  rfl

/-- C5: with a truthy, valid time as the current value, selecting a
meridiem entry recomputes the full value from the existing
hour/minute/second plus the selected meridiem — preserving the displayed
(12-hour) hour, the minutes and the seconds while putting the hour into
the selected half of the day — installs the selected meridiem, fires the
`select` event with the new value (the same value passed to `setValue`),
and collapses the picker. -/
theorem claim5_onSelect (now : JSDate) (hnow : validDate now) (d : JSDate)
    (hh : d.hours ≤ 23) (hi : d.minutes ≤ 59) (hsec : d.seconds ≤ 59)
    (code : String) (hc : code = amStr ∨ code = pmStr) :
    ∃ d' : JSDate,
      onSelect now code (.date d) = some ⟨code, some (.date d'), true, true⟩ ∧
        d'.hours % 12 = d.hours % 12 ∧ d'.minutes = d.minutes ∧
        d'.seconds = d.seconds ∧ ((12 ≤ d'.hours) ↔ code = pmStr) := by
  have h12b : 1 ≤ h12 d.hours ∧ h12 d.hours ≤ 12 := h12_pos d.hours
  have htoks : fmtToks hisAStr.data = [Tok.th, Tok.ti, Tok.ts, Tok.tA] := by decide
  obtain ⟨hm11, hd1, hd2, _, _, _, _⟩ := hnow
  rcases hc with hc | hc <;> subst hc
  · have hfdata : (extDateFormat d hisStr ++ amStr).data =
        pad2 (h12 d.hours) ++ (pad2 d.minutes ++ (pad2 d.seconds ++ ('A' :: 'M' :: []))) := by
      rw [String.data_append, extDateFormat_his]
      have hcd : amStr.data = 'A' :: 'M' :: ([] : List Char) := by decide
      rw [hcd]
      simp [List.append_assoc]
    have hmm : matchToks (fmtToks hisAStr.data) (extDateFormat d hisStr ++ amStr).data
          ({} : Acc) =
        some ⟨some (h12 d.hours), some d.minutes, some d.seconds, some false⟩ := by
      rw [htoks, hfdata, matchToks_th _ h12b.1 h12b.2, matchToks_ti _ hi,
        matchToks_tsec _ hsec, matchToks_tA_AM]
      rfl
    have hin := mkDateNorm_inRange now.year now.month now.day
      (applyAM (some (h12 d.hours))) d.minutes d.seconds 0 hm11 hd1 hd2
      (by have := (applyAM_h12 d.hours).2; omega) hi hsec (by omega)
    rw [Nat.cast_zero] at hin
    refine ⟨⟨now.year, now.month, now.day, applyAM (some (h12 d.hours)), d.minutes,
      d.seconds, 0⟩, ?_, (applyAM_h12 d.hours).1, rfl, rfl,
      iff_of_false (by
        show ¬ 12 ≤ applyAM (some (h12 d.hours))
        have := (applyAM_h12 d.hours).2
        omega) (by decide)⟩
    unfold onSelect
    rw [if_pos (show jsTruthy (JSVal.date d) = true from rfl)]
    dsimp only
    unfold extDateParse
    rw [hmm]
    simp only [Option.map_some', accHours, Option.getD_some]
    rw [hin]
    rfl
  · have hfdata : (extDateFormat d hisStr ++ pmStr).data =
        pad2 (h12 d.hours) ++ (pad2 d.minutes ++ (pad2 d.seconds ++ ('P' :: 'M' :: []))) := by
      rw [String.data_append, extDateFormat_his]
      have hcd : pmStr.data = 'P' :: 'M' :: ([] : List Char) := by decide
      rw [hcd]
      simp [List.append_assoc]
    have hmm : matchToks (fmtToks hisAStr.data) (extDateFormat d hisStr ++ pmStr).data
          ({} : Acc) =
        some ⟨some (h12 d.hours), some d.minutes, some d.seconds, some true⟩ := by
      rw [htoks, hfdata, matchToks_th _ h12b.1 h12b.2, matchToks_ti _ hi,
        matchToks_tsec _ hsec, matchToks_tA_PM]
      rfl
    have hin := mkDateNorm_inRange now.year now.month now.day
      (applyPM (some (h12 d.hours))) d.minutes d.seconds 0 hm11 hd1 hd2
      (applyPM_h12 d.hours).2.2 hi hsec (by omega)
    rw [Nat.cast_zero] at hin
    refine ⟨⟨now.year, now.month, now.day, applyPM (some (h12 d.hours)), d.minutes,
      d.seconds, 0⟩, ?_, (applyPM_h12 d.hours).1, rfl, rfl,
      iff_of_true (show (12 : Nat) ≤ applyPM (some (h12 d.hours)) from
        (applyPM_h12 d.hours).2.1) rfl⟩
    unfold onSelect
    rw [if_pos (show jsTruthy (JSVal.date d) = true from rfl)]
    dsimp only
    unfold extDateParse
    rw [hmm]
    simp only [Option.map_some', accHours, Option.getD_some]
    rw [hin]
    rfl

theorem claim5_witness :
    validDate now0 ∧
      (∃ d' : JSDate,
        onSelect now0 amStr (.date ⟨2026, 9, 11, 15, 45, 0, 0⟩) =
            some ⟨amStr, some (.date d'), true, true⟩ ∧
          d'.hours % 12 = (⟨2026, 9, 11, 15, 45, 0, 0⟩ : JSDate).hours % 12 ∧
          d'.minutes = (⟨2026, 9, 11, 15, 45, 0, 0⟩ : JSDate).minutes ∧
          d'.seconds = (⟨2026, 9, 11, 15, 45, 0, 0⟩ : JSDate).seconds ∧
          ((12 ≤ d'.hours) ↔ amStr = pmStr)) :=
  ⟨by decide,
    claim5_onSelect now0 (by decide) ⟨2026, 9, 11, 15, 45, 0, 0⟩ (by decide) (by decide)
      (by decide) amStr (Or.inl rfl)⟩

/-- C6 counterexample: with the default config, current meridiem PM and
today 2026-10-11, the valid input "3:45" parses to 15:45 today and
formats to the canonical "03:45PM" — but feeding that round-tripped text
back into the parser yields null, not the same time, because `parseDate`
appends the meridiem a second time. -/
theorem claim6_counterexample :
    parseDate cfgDefault now0 (some "PM") (.str "3:45") =
        .date ⟨2026, 9, 11, 15, 45, 0, 0⟩ ∧
      formatDate cfgDefault (.date ⟨2026, 9, 11, 15, 45, 0, 0⟩) = .str "03:45PM" ∧
      parseDate cfgDefault now0 (some "PM") (.str "03:45PM") = .null := by
  decide

/-- C6 (amended): for every string the component parses successfully
(default config, any truthy meridiem, valid current date), formatting the
parsed value yields the canonical rendering of that time under the
configured format, and that text re-parses to the same time via
`safeParse` with the primary format; `parseDate` itself, however, returns
null on the round-tripped text, because it appends the current meridiem
again. -/
theorem claim6_amended_roundtrip (now : JSDate) (hnow : validDate now)
    (mer : String) (hmer : mer ≠ "") (s : String) (d : JSDate)
    (hp : parseDate cfgDefault now (some mer) (.str s) = .date d) :
    formatDate cfgDefault (.date d) = .str (extDateFormat d cfgDefault.format) ∧
      safeParse cfgDefault now (extDateFormat d cfgDefault.format) cfgDefault.format =
        some d ∧
      parseDate cfgDefault now (some mer)
        (.str (extDateFormat d cfgDefault.format)) = .null := by
  obtain ⟨f, hf⟩ := parseDate_str_date _ _ _ _ _ hp
  obtain ⟨e1, e2, e3, e4, e5, e6, e7, e8⟩ :=
    safeParse_fields _ _ hnow _ _ _ hf
  have hsec : d.seconds = 0 := e8 rfl
  have hlen7 : (extDateFormat d cfgDefault.format).data.length = 7 :=
    extDateFormat_hiA_length d e5
  have hm1 : 1 ≤ mer.data.length := by
    have hx : ¬ mer.length < 1 := fun hlt => hmer ((str_length_lt1_iff mer).mp hlt)
    have he : mer.length = mer.data.length := rfl
    omega
  refine ⟨rfl, ?_, ?_⟩
  · obtain ⟨dy, dm, dd, dH, dI, dS, dms⟩ := d
    dsimp only at e1 e2 e3 e4 e5 e7 hsec
    subst e1
    subst e2
    subst e3
    subst e7
    subst hsec
    exact safeParse_roundtrip now hnow dH dI e4 e5
  · apply parseDate_long_null now mer
    · cases hq : (extDateFormat d cfgDefault.format).isEmpty
      · rfl
      · have hempty := (String.isEmpty_iff _).mp hq
        rw [hempty] at hlen7
        cases hlen7
    · have hcat : (jsConcatMer (extDateFormat d cfgDefault.format) (some mer)).data =
          (extDateFormat d cfgDefault.format).data ++ mer.data := by
        simp only [jsConcatMer, Option.getD_some]
        exact String.data_append _ _
      rw [hcat, List.length_append]
      omega

theorem claim6_witness :
    formatDate cfgDefault (.date ⟨2026, 9, 11, 15, 45, 0, 0⟩) =
        .str (extDateFormat ⟨2026, 9, 11, 15, 45, 0, 0⟩ cfgDefault.format) ∧
      safeParse cfgDefault now0
          (extDateFormat ⟨2026, 9, 11, 15, 45, 0, 0⟩ cfgDefault.format)
          cfgDefault.format =
        some ⟨2026, 9, 11, 15, 45, 0, 0⟩ ∧
      parseDate cfgDefault now0 (some "PM")
        (.str (extDateFormat ⟨2026, 9, 11, 15, 45, 0, 0⟩ cfgDefault.format)) = .null :=
  claim6_amended_roundtrip now0 (by decide) "PM" (by decide) "3:45"
    ⟨2026, 9, 11, 15, 45, 0, 0⟩ (by decide)

theorem claim3_witness :
    getErrors cfgDefault now0 (some "PM") (some ⟨2026, 9, 11, 16, 0, 0, 0⟩)
        (some ⟨2026, 9, 11, 17, 0, 0, 0⟩) .null "9999" [] =
      [] ++ [strFmt cfgDefault.invalidText
        ["9999" ++ " " ++ merDisplay (some "PM"), cfgDefault.invalidTextFormat]] :=
  claim3_getErrors_invalid cfgDefault now0 (some "PM") (some ⟨2026, 9, 11, 16, 0, 0, 0⟩)
    (some ⟨2026, 9, 11, 17, 0, 0, 0⟩) .null "9999" [] "9999" (by decide) (by decide)
    (by decide)

end MeridiemTime
